import Mathlib

/-!
# PNGme chunk codec — shallow embedding and verification

A shallow embedding of the PNG chunk codec of this repository
(`src/chunk_type.rs`, `src/chunk.rs`) and proofs of the specified
properties. Bytes are modelled as `Nat` (with `< 256` hypotheses where
the Rust `u8` type carries the bound); `u32` arithmetic is explicit
`% 2 ^ 32`; fallible operations return `Except`; the unchecked slice
indexing of `Chunk::try_from` (which aborts the Rust process on a
truncated length field) is modelled by a dedicated `outOfBounds`
outcome.
-/

namespace PNGme

/-- The predicate that a list of naturals is a list of bytes
(models `Vec<u8>` / `&[u8]`). -/
def isBytes (l : List Nat) : Prop := ∀ b ∈ l, b < 256

instance (l : List Nat) : Decidable (isBytes l) :=
  inferInstanceAs (Decidable (∀ b ∈ l, b < 256))

/-! ## CRC-32/ISO-HDLC (the `crc` crate's `CRC_32_ISO_HDLC`)

Reflected CRC-32 with polynomial `0xEDB88320`, initial value
`0xFFFFFFFF` and final xor `0xFFFFFFFF`. -/

/-- One bit step of the reflected CRC-32: shift right, conditionally
xor the reflected polynomial. -/
def crcStepBit (c : Nat) : Nat :=
  if c % 2 = 1 then (c / 2) ^^^ 0xEDB88320 else c / 2

/-- Iterates `n` bit steps. -/
def crcStepBits : Nat → Nat → Nat
  | 0, c => c
  | n + 1, c => crcStepBits n (crcStepBit c)

/-- One byte step: xor the byte into the low bits, then 8 bit steps. -/
def crcStepByte (c b : Nat) : Nat := crcStepBits 8 (c ^^^ b)

/-- CRC-32/ISO-HDLC of a byte list, as computed by
`Crc::<u32>::new(&crc::CRC_32_ISO_HDLC).checksum(data)`. -/
def crc32 (data : List Nat) : Nat :=
  (data.foldl crcStepByte 0xFFFFFFFF) ^^^ 0xFFFFFFFF

/-! ## ChunkType (`src/chunk_type.rs`) -/

/-- Rust `ChunkType([u8; 4])`: four raw bytes. -/
structure ChunkType where
  b0 : Nat
  b1 : Nat
  b2 : Nat
  b3 : Nat
deriving DecidableEq, Repr

/-- Rust `ChunkType::bytes`: the stored bytes. -/
def ChunkType.bytes (t : ChunkType) : List Nat := [t.b0, t.b1, t.b2, t.b3]

/-- Rust `TryFrom<[u8; 4]> for ChunkType`: accepts raw bytes as-is, always
succeeds (`Ok(Self(value))`). -/
def ChunkType.try_from (a b c d : Nat) : Except Unit ChunkType :=
  .ok ⟨a, b, c, d⟩

/-- Rust `ChunkTypeError` of `src/chunk_type.rs`. -/
inductive ChunkTypeError where
  | ByteLengthError (actual : Nat)
  | InvalidCharacter
deriving DecidableEq, Repr

/-- The character test of `from_str` and `is_valid`:
`c >= b'a' && c <= b'z' || c >= b'A' && c <= b'Z'`. -/
def isAsciiLetterByte (c : Nat) : Bool :=
  (97 ≤ c && c ≤ 122) || (65 ≤ c && c ≤ 90)

/-- Rust `FromStr for ChunkType::from_str`, over the UTF-8 bytes of the
input string: length check, then per-byte letter check, then the four
bytes are stored verbatim. -/
def ChunkType.from_str (s : List Nat) : Except ChunkTypeError ChunkType :=
  if h : s.length = 4 then
    if s.all isAsciiLetterByte then
      match s, h with
      | [a, b, c, d], _ => .ok ⟨a, b, c, d⟩
    else
      .error .InvalidCharacter
  else
    .error (.ByteLengthError s.length)

/-- Rust `is_critical`: `(self.0[0] & 0x20) != 0x20`. -/
def ChunkType.is_critical (t : ChunkType) : Bool := (t.b0 &&& 0x20) != 0x20

/-- Rust `is_public`: `(self.0[1] & 0x20) != 0x20`. -/
def ChunkType.is_public (t : ChunkType) : Bool := (t.b1 &&& 0x20) != 0x20

/-- Rust `is_reserved_bit_valid`: `(self.0[2] & 0x20) != 0x20`. -/
def ChunkType.is_reserved_bit_valid (t : ChunkType) : Bool :=
  (t.b2 &&& 0x20) != 0x20

/-- Rust `is_safe_to_copy`: `(self.0[3] & 0x20) == 0x20`. -/
def ChunkType.is_safe_to_copy (t : ChunkType) : Bool := (t.b3 &&& 0x20) == 0x20

/-- Rust `is_valid`: reserved bit valid and all four bytes ASCII letters. -/
def ChunkType.is_valid (t : ChunkType) : Bool :=
  t.is_reserved_bit_valid && t.bytes.all isAsciiLetterByte

/-! ## Chunk (`src/chunk.rs`) -/

/-- The `Chunk` struct: `length: u32`, `chunk_type: ChunkType`,
`data: Vec<u8>`, `crc: u32`. -/
structure Chunk where
  length : Nat
  chunk_type : ChunkType
  data : List Nat
  crc : Nat
deriving DecidableEq, Repr

/-- Rust `Chunk::new`: length is `data.len() as u32` (truncation mod `2 ^ 32`),
crc is CRC-32/ISO-HDLC over type bytes followed by data. -/
def Chunk.new (chunk_type : ChunkType) (data : List Nat) : Chunk :=
  { chunk_type := chunk_type
    length := data.length % 2 ^ 32
    crc := crc32 (chunk_type.bytes ++ data)
    data := data }

/-- Rust `data_as_string`: maps each payload byte to the character with that
code point (`c as char`); always returns `Ok`. -/
def Chunk.data_as_string (c : Chunk) : Except Unit (List Char) :=
  .ok (c.data.map Char.ofNat)

/-- Rust `u32::to_be_bytes` (argument a `u32`, i.e. `< 2 ^ 32`). -/
def u32be (n : Nat) : List Nat :=
  [n / 2 ^ 24 % 256, n / 2 ^ 16 % 256, n / 2 ^ 8 % 256, n % 256]

/-- Rust `u32::from_be_bytes`. -/
def u32fromBE (a b c d : Nat) : Nat :=
  a * 2 ^ 24 + b * 2 ^ 16 + c * 2 ^ 8 + d

/-- Rust `Chunk::as_bytes`: big-endian length, type bytes, data, big-endian crc. -/
def Chunk.as_bytes (c : Chunk) : List Nat :=
  u32be c.length ++ c.chunk_type.bytes ++ c.data ++ u32be c.crc

/-- Rust `ChunkError` of `src/chunk.rs`. -/
inductive ChunkError where
  | ByteLengthError (actual : Nat)
  | MismatchedCrcError (actual : Nat)
deriving DecidableEq, Repr

/-- Outcome of `Chunk::try_from`: an `Ok` chunk, an `Err` value, or a
Rust panic from out-of-bounds slice indexing (which aborts the process). -/
inductive ParseOutcome where
  | ok (c : Chunk)
  | err (e : ChunkError)
  | outOfBounds
deriving DecidableEq, Repr

/-- The declared data length: `u32::from_be_bytes(value[0..4])`. -/
def declLen (v : List Nat) : Nat :=
  u32fromBE (v.getD 0 0) (v.getD 1 0) (v.getD 2 0) (v.getD 3 0)

/-- The parsed chunk type: `value[4..8]` accepted raw
(`ChunkType::try_from(..).unwrap()` never fails). -/
def parsedType (v : List Nat) : ChunkType :=
  ⟨v.getD 4 0, v.getD 5 0, v.getD 6 0, v.getD 7 0⟩

/-- The parsed payload: `value[8..(data_length + 8)].to_vec()`. -/
def parsedData (v : List Nat) : List Nat :=
  (v.drop 8).take (declLen v)

/-- The declared crc:
`u32::from_be_bytes(value[(data_length + 8)..(data_length + 12)])`. -/
def declCrc (v : List Nat) : Nat :=
  u32fromBE (v.getD (declLen v + 8) 0) (v.getD (declLen v + 9) 0)
    (v.getD (declLen v + 10) 0) (v.getD (declLen v + 11) 0)

/-- The crc input slice: `value[4..(data_length + 8)]`. -/
def typeAndData (v : List Nat) : List Nat :=
  (v.drop 4).take (declLen v + 4)

/-- Rust `TryFrom<&[u8]> for Chunk::try_from`. The Rust code slices
`value[8..N + 8]` and `value[N + 8..N + 12]` without a bounds check, so
when `N + 12` exceeds the input length the process panics; that branch
is the `outOfBounds` outcome. -/
def Chunk.try_from (v : List Nat) : ParseOutcome :=
  if v.length < 12 then
    .err (.ByteLengthError v.length)
  else if v.length < declLen v + 12 then
    .outOfBounds
  else if declCrc v ≠ crc32 (typeAndData v) then
    .err (.MismatchedCrcError (crc32 (typeAndData v)))
  else
    .ok { length := declLen v
          chunk_type := parsedType v
          data := parsedData v
          crc := declCrc v }

/-- The four bytes of the chunk type string of the tests, `RuSt`. -/
def rustType : ChunkType := ⟨82, 117, 83, 116⟩

/-- The UTF-8 bytes of the test message,
`This is where your secret message will be!`. -/
def secretMessage : List Nat :=
  [84, 104, 105, 115, 32, 105, 115, 32, 119, 104, 101, 114, 101, 32, 121,
   111, 117, 114, 32, 115, 101, 99, 114, 101, 116, 32, 109, 101, 115, 115,
   97, 103, 101, 32, 119, 105, 108, 108, 32, 98, 101, 33]

/-- An 8-byte record with declared length `0`, type `RuSt` and the
matching crc `3565422908`: the smallest well-formed chunk record. -/
def emptyRecord : List Nat :=
  [0, 0, 0, 0, 82, 117, 83, 116, 212, 132, 9, 60]

/-! ## Helper lemmas -/

/-- The `& 0x20` tests of `chunk_type.rs` read exactly bit 5. -/
theorem and32_ne_iff (n : Nat) : (n &&& 32 != 32) = true ↔ n.testBit 5 = false := by
  have h := Nat.and_two_pow n 5
  norm_num at h
  cases hb : n.testBit 5 <;> simp [hb] at h <;> simp [h, hb]

/-- The `& 0x20 == 0x20` test of `is_safe_to_copy` reads exactly bit 5. -/
theorem and32_eq_iff (n : Nat) : (n &&& 32 == 32) = true ↔ n.testBit 5 = true := by
  have h := Nat.and_two_pow n 5
  norm_num at h
  cases hb : n.testBit 5 <;> simp [hb] at h <;> simp [h, hb]

set_option maxRecDepth 10000 in
/-- Sanity check of the CRC model: the CRC-32/ISO-HDLC check value, the
checksum of the ASCII digits 1-9. -/
theorem crc32_check_value :
    crc32 [0x31, 0x32, 0x33, 0x34, 0x35, 0x36, 0x37, 0x38, 0x39] = 0xCBF43926 := by
  decide

theorem chunk_new_length_mod (t : ChunkType) (d : List Nat) :
    (Chunk.new t d).length = d.length % 2 ^ 32 := rfl

theorem toNat_ofNat_of_lt (b : Nat) (h : b < 256) : (Char.ofNat b).toNat = b := by
  have hv : b.isValidChar := Or.inl (by omega)
  rw [Char.ofNat, dif_pos hv]
  rfl

theorem isBytes_append (l₁ l₂ : List Nat) (h₁ : isBytes l₁) (h₂ : isBytes l₂) :
    isBytes (l₁ ++ l₂) := by
  intro b hb
  rcases List.mem_append.1 hb with h | h
  · exact h₁ b h
  · exact h₂ b h

/-- The source's byte-wise letter test agrees with the ASCII letter ranges. -/
theorem isAsciiLetterByte_iff (b : Nat) :
    isAsciiLetterByte b = true ↔ (65 ≤ b ∧ b ≤ 90) ∨ (97 ≤ b ∧ b ≤ 122) := by
  simp [isAsciiLetterByte]
  omega

theorem crcStepBit_lt (c : Nat) (h : c < 2 ^ 32) : crcStepBit c < 2 ^ 32 := by
  unfold crcStepBit
  split
  · exact Nat.xor_lt_two_pow (by omega) (by norm_num)
  · omega

theorem crcStepBits_lt (n c : Nat) (h : c < 2 ^ 32) : crcStepBits n c < 2 ^ 32 := by
  induction n generalizing c with
  | zero => exact h
  | succ n ih => exact ih _ (crcStepBit_lt c h)

theorem crcStepByte_lt (c b : Nat) (hc : c < 2 ^ 32) (hb : b < 256) :
    crcStepByte c b < 2 ^ 32 :=
  crcStepBits_lt 8 _ (Nat.xor_lt_two_pow hc (by omega))

theorem crc_foldl_lt (l : List Nat) :
    ∀ c : Nat, isBytes l → c < 2 ^ 32 → l.foldl crcStepByte c < 2 ^ 32 := by
  induction l with
  | nil => exact fun c _ hc => hc
  | cons b tl ih =>
    intro c h hc
    exact ih _ (fun x hx => h x (List.mem_cons_of_mem _ hx))
      (crcStepByte_lt c b hc (h b (List.mem_cons_self b tl)))

/-- CRC-32 of a byte list is a `u32`. -/
theorem crc32_lt (l : List Nat) (h : isBytes l) : crc32 l < 2 ^ 32 := by
  unfold crc32
  exact Nat.xor_lt_two_pow (crc_foldl_lt l _ h (by norm_num)) (by norm_num)

theorem getD_take (l : List Nat) (i n d : Nat) (h : i < n) :
    (l.take n).getD i d = l.getD i d := by
  rw [List.getD_eq_getElem?_getD, List.getD_eq_getElem?_getD, List.getElem?_take,
    if_pos h]

theorem getD_drop (l : List Nat) (m i d : Nat) :
    (l.drop m).getD i d = l.getD (m + i) d := by
  rw [List.getD_eq_getElem?_getD, List.getD_eq_getElem?_getD, List.getElem?_drop]

theorem take4_eq (l : List Nat) (h : 4 ≤ l.length) :
    l.take 4 = [l.getD 0 0, l.getD 1 0, l.getD 2 0, l.getD 3 0] := by
  rcases l with _ | ⟨a, _ | ⟨b, _ | ⟨c, _ | ⟨d, tl⟩⟩⟩⟩ <;>
    simp [List.getD] at h ⊢

/-- Under the bounds hypothesis, the crc input slice `value[4..N + 8]` is
the parsed type bytes followed by the parsed payload. -/
theorem typeAndData_eq (v : List Nat) (h : declLen v + 12 ≤ v.length) :
    typeAndData v = (parsedType v).bytes ++ parsedData v := by
  have h4 : 4 ≤ (v.drop 4).length := by
    simp [List.length_drop]
    omega
  calc typeAndData v = (v.drop 4).take (4 + declLen v) := by
        rw [typeAndData, Nat.add_comm]
    _ = (v.drop 4).take 4 ++ ((v.drop 4).drop 4).take (declLen v) :=
        List.take_add ..
    _ = (parsedType v).bytes ++ parsedData v := by
        rw [take4_eq _ h4, List.drop_drop]
        simp [parsedType, ChunkType.bytes, parsedData, getD_drop]

/-- Evaluation of `Chunk::try_from` once the input is long enough for the
declared record: only the crc check remains. -/
theorem try_from_of_le (v : List Nat) (hN : declLen v + 12 ≤ v.length) :
    Chunk.try_from v =
      if declCrc v ≠ crc32 (typeAndData v) then
        .err (.MismatchedCrcError (crc32 (typeAndData v)))
      else
        .ok { length := declLen v, chunk_type := parsedType v,
              data := parsedData v, crc := declCrc v } := by
  simp only [Chunk.try_from]
  rw [if_neg (by omega), if_neg (by omega)]

/-! ## Claim theorems -/

/-- C8: parsing a buffer shorter than 12 bytes fails with a byte-length
error reporting the actual length (and never panics). -/
theorem chunk_parse_short_input (v : List Nat) (h : v.length < 12) :
    Chunk.try_from v = .err (.ByteLengthError v.length) := by
  simp only [Chunk.try_from]
  rw [if_pos h]

theorem chunk_parse_short_input_case :
    ([1, 2, 3] : List Nat).length < 12 ∧
      Chunk.try_from [1, 2, 3] = .err (.ByteLengthError 3) :=
  ⟨by decide, chunk_parse_short_input [1, 2, 3] (by decide)⟩

/-- C1: on an input of at least 12 bytes whose declared length `N`
satisfies `12 + N >` input length, `Chunk::try_from` does not return an
error value: it performs an out-of-bounds slice and the process aborts.
This contradicts the specified recoverable length/bounds error. -/
theorem chunk_parse_truncated_aborts (v : List Nat) (h12 : 12 ≤ v.length)
    (htr : v.length < declLen v + 12) :
    Chunk.try_from v = .outOfBounds := by
  simp only [Chunk.try_from]
  rw [if_neg (by omega), if_pos htr]

theorem chunk_parse_truncated_aborts_case :
    12 ≤ ([0, 0, 0, 1, 82, 117, 83, 116, 0, 0, 0, 0] : List Nat).length ∧
      ([0, 0, 0, 1, 82, 117, 83, 116, 0, 0, 0, 0] : List Nat).length <
        declLen [0, 0, 0, 1, 82, 117, 83, 116, 0, 0, 0, 0] + 12 ∧
      Chunk.try_from [0, 0, 0, 1, 82, 117, 83, 116, 0, 0, 0, 0] = .outOfBounds :=
  ⟨by decide, by decide,
    chunk_parse_truncated_aborts [0, 0, 0, 1, 82, 117, 83, 116, 0, 0, 0, 0]
      (by decide) (by decide)⟩

/-- C5: the four flag accessors test bit 5 (0x20) of bytes 0-3 (set
means ancillary / private / reserved-invalid / safe-to-copy), with the
concrete cases for `RuSt`, `ruSt` and `Rust`. -/
theorem chunk_type_flag_semantics (t : ChunkType) :
    (t.is_critical = true ↔ t.b0.testBit 5 = false) ∧
    (t.is_public = true ↔ t.b1.testBit 5 = false) ∧
    (t.is_reserved_bit_valid = true ↔ t.b2.testBit 5 = false) ∧
    (t.is_safe_to_copy = true ↔ t.b3.testBit 5 = true) ∧
    rustType.is_critical = true ∧ rustType.is_public = false ∧
    rustType.is_reserved_bit_valid = true ∧ rustType.is_safe_to_copy = true ∧
    (ChunkType.mk 114 117 83 116).is_critical = false ∧
    (ChunkType.mk 82 117 115 116).is_reserved_bit_valid = false :=
  ⟨and32_ne_iff t.b0, and32_ne_iff t.b1, and32_ne_iff t.b2, and32_eq_iff t.b3,
    by decide, by decide, by decide, by decide, by decide, by decide⟩

theorem chunk_type_flag_semantics_case :
    (rustType.is_critical = true ↔ rustType.b0.testBit 5 = false) ∧
    (rustType.is_public = true ↔ rustType.b1.testBit 5 = false) ∧
    (rustType.is_reserved_bit_valid = true ↔ rustType.b2.testBit 5 = false) ∧
    (rustType.is_safe_to_copy = true ↔ rustType.b3.testBit 5 = true) ∧
    rustType.is_critical = true ∧ rustType.is_public = false ∧
    rustType.is_reserved_bit_valid = true ∧ rustType.is_safe_to_copy = true ∧
    (ChunkType.mk 114 117 83 116).is_critical = false ∧
    (ChunkType.mk 82 117 115 116).is_reserved_bit_valid = false :=
  chunk_type_flag_semantics rustType

/-- C6: `is_valid` holds iff all four bytes are ASCII letters and bit 5
of byte 2 (the reserved bit) is unset; the other flag bits are
irrelevant. -/
theorem chunk_type_is_valid_iff (t : ChunkType) :
    t.is_valid = true ↔
      ((∀ b ∈ t.bytes, (65 ≤ b ∧ b ≤ 90) ∨ (97 ≤ b ∧ b ≤ 122)) ∧
        t.b2.testBit 5 = false) := by
  simp only [ChunkType.is_valid, Bool.and_eq_true, List.all_eq_true]
  constructor
  · rintro ⟨hr, hl⟩
    exact ⟨fun b hb => (isAsciiLetterByte_iff b).1 (hl b hb),
      (and32_ne_iff t.b2).1 hr⟩
  · rintro ⟨hl, hr⟩
    exact ⟨(and32_ne_iff t.b2).2 hr,
      fun b hb => (isAsciiLetterByte_iff b).2 (hl b hb)⟩

theorem chunk_type_is_valid_iff_case :
    rustType.is_valid = true ↔
      ((∀ b ∈ rustType.bytes, (65 ≤ b ∧ b ≤ 90) ∨ (97 ≤ b ∧ b ≤ 122)) ∧
        rustType.b2.testBit 5 = false) :=
  chunk_type_is_valid_iff rustType

/-- C7: `from_str` fails with a length error unless the input has
exactly 4 bytes, fails with an invalid-character error if a byte is not
an ASCII letter, and otherwise stores the 4 bytes verbatim. -/
theorem chunk_type_from_str_spec (s : List Nat) :
    (s.length ≠ 4 → ChunkType.from_str s = .error (.ByteLengthError s.length)) ∧
    (s.length = 4 → (∃ b ∈ s, ¬((65 ≤ b ∧ b ≤ 90) ∨ (97 ≤ b ∧ b ≤ 122))) →
      ChunkType.from_str s = .error .InvalidCharacter) ∧
    (s.length = 4 → (∀ b ∈ s, (65 ≤ b ∧ b ≤ 90) ∨ (97 ≤ b ∧ b ≤ 122)) →
      ∃ t : ChunkType, ChunkType.from_str s = .ok t ∧ t.bytes = s) := by
  refine ⟨fun h4 => ?_, fun h4 hbad => ?_, fun h4 hgood => ?_⟩
  · simp only [ChunkType.from_str]
    rw [dif_neg h4]
  · have hall : s.all isAsciiLetterByte = false := by
      rw [List.all_eq_false]
      obtain ⟨b, hb, hnb⟩ := hbad
      exact ⟨b, hb, fun hc => hnb ((isAsciiLetterByte_iff b).1 hc)⟩
    simp only [ChunkType.from_str]
    rw [dif_pos h4, if_neg (by rw [hall]; exact Bool.false_ne_true)]
  · rcases s with _ | ⟨a, _ | ⟨b, _ | ⟨c, _ | ⟨d, _ | ⟨e, tl⟩⟩⟩⟩⟩ <;>
      simp at h4
    have hall : ([a, b, c, d].all isAsciiLetterByte) = true :=
      List.all_eq_true.2 fun x hx => (isAsciiLetterByte_iff x).2 (hgood x hx)
    exact ⟨⟨a, b, c, d⟩, by simp [ChunkType.from_str, hall], rfl⟩

theorem chunk_type_from_str_spec_case :
    ([82, 117, 115] : List Nat).length ≠ 4 ∧
      ChunkType.from_str [82, 117, 115] = .error (.ByteLengthError 3) :=
  ⟨by decide, (chunk_type_from_str_spec [82, 117, 115]).1 (by decide)⟩

/-- C4 counterexample: `Chunk::new` computes the length with
`data.len() as u32`, so a payload of `2 ^ 32` bytes gets length 0, not
its byte count. -/
theorem chunk_new_length_overflow_cex :
    (Chunk.new rustType (List.replicate (2 ^ 32) 0)).length ≠
      (List.replicate (2 ^ 32) 0).length := by
  rw [chunk_new_length_mod, List.length_replicate, Nat.mod_self]
  norm_num

set_option maxRecDepth 100000 in
/-- C4 (amended): `Chunk::new` sets the length to the byte count of the
data reduced mod `2 ^ 32` (equal to the byte count whenever that is in
32-bit range) and the crc to CRC-32/ISO-HDLC over type bytes followed by
data; for type `RuSt` and the test message the crc is `2882656334`. -/
theorem chunk_new_spec (t : ChunkType) (d : List Nat) :
    (Chunk.new t d).length = d.length % 2 ^ 32 ∧
    (d.length < 2 ^ 32 → (Chunk.new t d).length = d.length) ∧
    (Chunk.new t d).crc = crc32 (t.bytes ++ d) ∧
    (Chunk.new rustType secretMessage).crc = 2882656334 :=
  ⟨rfl, fun h => Nat.mod_eq_of_lt h, rfl, by decide⟩

theorem chunk_new_spec_case :
    secretMessage.length < 2 ^ 32 ∧
      (Chunk.new rustType secretMessage).length = secretMessage.length :=
  ⟨by decide, (chunk_new_spec rustType secretMessage).2.1 (by decide)⟩

/-- C9: `data_as_string` always returns `Ok`, and the resulting string
has one character per payload byte whose code point is that byte. -/
theorem data_as_string_total (c : Chunk) (h : isBytes c.data) :
    ∃ s : List Char, c.data_as_string = .ok s ∧ s.length = c.data.length ∧
      ∀ i, i < c.data.length → (s.getD i 'A').toNat = c.data.getD i 0 := by
  refine ⟨c.data.map Char.ofNat, rfl, by simp, fun i hi => ?_⟩
  have hb : c.data[i] < 256 := h _ (List.getElem_mem hi)
  simp only [List.getD_eq_getElem?_getD, List.getElem?_map,
    List.getElem?_eq_getElem hi, Option.map_some', Option.getD_some]
  exact toNat_ofNat_of_lt _ hb

theorem data_as_string_total_case :
    isBytes ((Chunk.new rustType [72, 200, 0]).data) ∧
      ∃ s : List Char,
        (Chunk.new rustType [72, 200, 0]).data_as_string = .ok s ∧
        s.length = (Chunk.new rustType [72, 200, 0]).data.length ∧
        ∀ i, i < (Chunk.new rustType [72, 200, 0]).data.length →
          (s.getD i 'A').toNat = (Chunk.new rustType [72, 200, 0]).data.getD i 0 :=
  ⟨by decide, data_as_string_total (Chunk.new rustType [72, 200, 0]) (by decide)⟩

/-- C3: when the input is long enough for the declared record, parsing
fails with a crc-mismatch error (carrying the recomputed crc) iff the
declared crc differs from CRC-32/ISO-HDLC over type bytes plus payload;
when they agree it succeeds with the declared length, parsed type,
payload and verified crc. -/
theorem chunk_parse_crc_check (v : List Nat) (hN : declLen v + 12 ≤ v.length) :
    (declCrc v ≠ crc32 ((parsedType v).bytes ++ parsedData v) →
      Chunk.try_from v =
        .err (.MismatchedCrcError (crc32 ((parsedType v).bytes ++ parsedData v)))) ∧
    (declCrc v = crc32 ((parsedType v).bytes ++ parsedData v) →
      Chunk.try_from v =
        .ok { length := declLen v, chunk_type := parsedType v,
              data := parsedData v, crc := declCrc v }) := by
  have htd := typeAndData_eq v hN
  rw [try_from_of_le v hN, htd]
  constructor
  · intro hne
    rw [if_pos hne]
  · intro heq
    rw [if_neg (by simpa using heq)]

set_option maxRecDepth 40000 in
theorem chunk_parse_crc_check_case :
    declLen emptyRecord + 12 ≤ emptyRecord.length ∧
      declCrc emptyRecord =
        crc32 ((parsedType emptyRecord).bytes ++ parsedData emptyRecord) ∧
      Chunk.try_from emptyRecord =
        .ok { length := declLen emptyRecord, chunk_type := parsedType emptyRecord,
              data := parsedData emptyRecord, crc := declCrc emptyRecord } :=
  ⟨by decide, by decide,
    (chunk_parse_crc_check emptyRecord (by decide)).2 (by decide)⟩

/-- C10: parsing reads only the first `12 + N` bytes (`N` the declared
length): the outcome on any input equals the outcome on its `12 + N`
prefix, and a well-formed prefix with a matching crc yields the chunk
built from that prefix alone. -/
theorem chunk_parse_ignores_trailing (v : List Nat)
    (hN : declLen v + 12 ≤ v.length) :
    Chunk.try_from v = Chunk.try_from (v.take (declLen v + 12)) ∧
    (declCrc v = crc32 ((parsedType v).bytes ++ parsedData v) →
      Chunk.try_from v =
        .ok { length := declLen v, chunk_type := parsedType v,
              data := parsedData v, crc := declCrc v }) := by
  have hlen : (v.take (declLen v + 12)).length = declLen v + 12 := by
    rw [List.length_take]
    omega
  have hdl : declLen (v.take (declLen v + 12)) = declLen v := by
    unfold declLen
    rw [getD_take _ _ _ _ (by omega), getD_take _ _ _ _ (by omega),
      getD_take _ _ _ _ (by omega), getD_take _ _ _ _ (by omega)]
  have hpt : parsedType (v.take (declLen v + 12)) = parsedType v := by
    unfold parsedType
    rw [getD_take _ _ _ _ (by omega), getD_take _ _ _ _ (by omega),
      getD_take _ _ _ _ (by omega), getD_take _ _ _ _ (by omega)]
  have hpd : parsedData (v.take (declLen v + 12)) = parsedData v := by
    unfold parsedData
    rw [hdl, List.drop_take, List.take_take]
    congr 1
    omega
  have hdc : declCrc (v.take (declLen v + 12)) = declCrc v := by
    unfold declCrc
    rw [hdl, getD_take _ _ _ _ (by omega), getD_take _ _ _ _ (by omega),
      getD_take _ _ _ _ (by omega), getD_take _ _ _ _ (by omega)]
  have htad : typeAndData (v.take (declLen v + 12)) = typeAndData v := by
    unfold typeAndData
    rw [hdl, List.drop_take, List.take_take]
    congr 1
    omega
  constructor
  · rw [try_from_of_le v hN,
      try_from_of_le _ (by rw [hdl, hlen]),
      hdl, hpt, hpd, hdc, htad]
  · intro heq
    rw [try_from_of_le v hN,
      if_neg (by rw [typeAndData_eq v hN]; simpa using heq)]

set_option maxRecDepth 40000 in
theorem chunk_parse_ignores_trailing_case :
    declLen (emptyRecord ++ [9, 9, 9]) + 12 ≤ (emptyRecord ++ [9, 9, 9]).length ∧
      Chunk.try_from (emptyRecord ++ [9, 9, 9]) =
        Chunk.try_from
          ((emptyRecord ++ [9, 9, 9]).take (declLen (emptyRecord ++ [9, 9, 9]) + 12)) :=
  ⟨by decide, (chunk_parse_ignores_trailing (emptyRecord ++ [9, 9, 9]) (by decide)).1⟩

/-- C2: a chunk built by `Chunk::new` from a type and a payload of
32-bit-range length serializes to big-endian length, type bytes, data
and big-endian crc (`N + 12` bytes in total), and parsing that buffer
succeeds with an equal chunk. -/
theorem chunk_roundtrip (t : ChunkType) (d : List Nat) (ht : isBytes t.bytes)
    (hd : isBytes d) (hlen : d.length < 2 ^ 32) :
    (Chunk.new t d).as_bytes =
      u32be d.length ++ t.bytes ++ d ++ u32be (crc32 (t.bytes ++ d)) ∧
    (Chunk.new t d).as_bytes.length = d.length + 12 ∧
    Chunk.try_from (Chunk.new t d).as_bytes = .ok (Chunk.new t d) := by
  obtain ⟨t0, t1, t2, t3⟩ := t
  simp only [ChunkType.bytes] at ht ⊢
  have hClt : crc32 ([t0, t1, t2, t3] ++ d) < 2 ^ 32 :=
    crc32_lt _ (isBytes_append _ _ ht hd)
  have hmod : d.length % 2 ^ 32 = d.length := Nat.mod_eq_of_lt hlen
  have hv : (Chunk.new ⟨t0, t1, t2, t3⟩ d).as_bytes =
      (d.length / 2 ^ 24 % 256) :: (d.length / 2 ^ 16 % 256) ::
      (d.length / 2 ^ 8 % 256) :: (d.length % 256) ::
      t0 :: t1 :: t2 :: t3 :: (d ++ u32be (crc32 ([t0, t1, t2, t3] ++ d))) := by
    simp [Chunk.as_bytes, Chunk.new, ChunkType.bytes, u32be, hmod]
    omega
  have hdl : declLen (Chunk.new ⟨t0, t1, t2, t3⟩ d).as_bytes = d.length := by
    rw [hv]
    simp only [declLen, u32fromBE, List.getD_cons_zero, List.getD_cons_succ]
    omega
  have hlength : (Chunk.new ⟨t0, t1, t2, t3⟩ d).as_bytes.length = d.length + 12 := by
    rw [hv]
    simp [u32be]
  have hdrop8 : (Chunk.new ⟨t0, t1, t2, t3⟩ d).as_bytes.drop 8 =
      d ++ u32be (crc32 ([t0, t1, t2, t3] ++ d)) := by
    rw [hv]
    simp
  have hpt : parsedType (Chunk.new ⟨t0, t1, t2, t3⟩ d).as_bytes =
      ⟨t0, t1, t2, t3⟩ := by
    unfold parsedType
    rw [hv]
    simp only [List.getD_cons_zero, List.getD_cons_succ]
  have hpd : parsedData (Chunk.new ⟨t0, t1, t2, t3⟩ d).as_bytes = d := by
    unfold parsedData
    rw [hdl, hdrop8, List.take_left]
  have htad : typeAndData (Chunk.new ⟨t0, t1, t2, t3⟩ d).as_bytes =
      [t0, t1, t2, t3] ++ d := by
    unfold typeAndData
    rw [hdl, hv]
    simp only [List.drop_succ_cons, List.drop_zero]
    rw [show d.length + 4 = 4 + d.length from by omega, List.take_add]
    simp [List.take_left]
  have hg : ∀ x : Nat, (Chunk.new ⟨t0, t1, t2, t3⟩ d).as_bytes.getD (8 + x) 0 =
      (d ++ u32be (crc32 ([t0, t1, t2, t3] ++ d))).getD x 0 := by
    intro x
    rw [← getD_drop, hdrop8]
  have hdc : declCrc (Chunk.new ⟨t0, t1, t2, t3⟩ d).as_bytes =
      crc32 ([t0, t1, t2, t3] ++ d) := by
    unfold declCrc
    rw [hdl]
    rw [show d.length + 8 = 8 + (d.length + 0) from by omega,
      show d.length + 9 = 8 + (d.length + 1) from by omega,
      show d.length + 10 = 8 + (d.length + 2) from by omega,
      show d.length + 11 = 8 + (d.length + 3) from by omega]
    rw [hg, hg, hg, hg]
    rw [List.getD_append_right _ _ _ _ (by omega),
      List.getD_append_right _ _ _ _ (by omega),
      List.getD_append_right _ _ _ _ (by omega),
      List.getD_append_right _ _ _ _ (by omega)]
    rw [show d.length + 0 - d.length = 0 from by omega,
      show d.length + 1 - d.length = 1 from by omega,
      show d.length + 2 - d.length = 2 from by omega,
      show d.length + 3 - d.length = 3 from by omega]
    simp only [u32be, u32fromBE, List.getD_cons_zero, List.getD_cons_succ]
    omega
  refine ⟨?_, hlength, ?_⟩
  · rw [hv]
    simp [u32be]
  · rw [try_from_of_le _ (by omega)]
    rw [if_neg (by rw [hdc, htad]; simp)]
    rw [hdl, hpt, hpd, hdc]
    simp [Chunk.new, ChunkType.bytes, hmod]
    omega

set_option maxRecDepth 40000 in
theorem chunk_roundtrip_case :
    isBytes rustType.bytes ∧ isBytes [1, 2, 250] ∧
      ([1, 2, 250] : List Nat).length < 2 ^ 32 ∧
      Chunk.try_from (Chunk.new rustType [1, 2, 250]).as_bytes =
        .ok (Chunk.new rustType [1, 2, 250]) :=
  ⟨by decide, by decide, by decide,
    (chunk_roundtrip rustType [1, 2, 250] (by decide) (by decide) (by decide)).2.2⟩

end PNGme

